import Mathlib

/-!
Verification of the PDF Translation App against its specification.

The repository ships the React/TypeScript frontend (`frontend/src`), an Apple
translation helper script (`backend/apple_translate.swift`) and setup scripts.
The Python backend (`main.py` / `translator.py`: job orchestrator, glossary
store, model lifecycle manager, download formatting) is not part of the
source tree; where a property is decided by that missing backend, the
corresponding definition is modelled from the specification and its doc
comment says so explicitly.
-/

set_option autoImplicit false

namespace PdfTranslation

/-! ## Quality tiers and the tier-to-model binding -/

/-- The quality tier type.  Embeds the key set of `QualityInfo.options` in
`frontend/src/types.ts`, which has exactly the fields `high`, `balanced`,
`fast`, and the tier set `{high, balanced, fast}` of the spec. -/
inductive QualityTier where
  | high
  | balanced
  | fast
deriving DecidableEq, Repr

/-- The string key under which a tier travels through the API and the UI. -/
def QualityTier.key : QualityTier → String
  | .high => "high"
  | .balanced => "balanced"
  | .fast => "fast"

/-- Embeds `getModelName` from `frontend/src/components/TranslationPanel.tsx`:
`modelMap[quality] || 'Qwen2.5-7B'` over the record
`{high: 'Qwen3-14B', balanced: 'Qwen2.5-7B', fast: 'Qwen2.5-3B'}`. -/
def getModelName (quality : String) : String :=
  if quality = "high" then "Qwen3-14B"
  else if quality = "balanced" then "Qwen2.5-7B"
  else if quality = "fast" then "Qwen2.5-3B"
  else "Qwen2.5-7B"

/-- Embeds the model badge of the App header (`src/unnamed/part_003`):
`selectedQuality === 'high' ? 'Qwen3-14B' : selectedQuality === 'balanced'
? 'Qwen2.5-7B' : 'Qwen2.5-3B'`. -/
def appHeaderModel (selectedQuality : String) : String :=
  if selectedQuality = "high" then "Qwen3-14B"
  else if selectedQuality = "balanced" then "Qwen2.5-7B"
  else "Qwen2.5-3B"

/-- Modelled from the spec: the backend quality-info endpoint (the Python
backend is not under `src`) binds each tier to exactly one model identifier,
the identifier the frontend displays for that tier. -/
def qualityOptionsModel : QualityTier → String
  | .high => "Qwen3-14B"
  | .balanced => "Qwen2.5-7B"
  | .fast => "Qwen2.5-3B"

/-! ## Translation job orchestrator

The orchestrator lives in the Python backend, which is not under `src`; the
definitions of this section are modelled from the specification (sections 3,
4.4 and 5 of the spec).  The job state is the process-wide singleton
`TranslationJob`, so at most one job can be running by construction. -/

/-- Job status set of the spec data model. -/
inductive JobStatus where
  | idle
  | running
  | cancelling
  | cancelled
  | completed
  | failed
deriving DecidableEq, Repr

/-- One translated page (the `TranslatedPage` of `frontend/src/types.ts`,
with the nested `original.text` / `translated.text` flattened). -/
structure TranslatedPage where
  page : Nat
  original : String
  translated : String
deriving DecidableEq, Repr

/-- Modelled from the spec: the singleton `TranslationJob` state
`{status, current_page, total_pages, quality, results}`. -/
structure JobState where
  status : JobStatus
  currentPage : Nat
  totalPages : Nat
  quality : QualityTier
  results : List TranslatedPage
deriving DecidableEq, Repr

/-- The error raised by a second start while a job runs. -/
inductive StartError where
  | jobAlreadyRunning
deriving DecidableEq, Repr

/-- Modelled from the spec: `start(document, quality)` fails with
`JobAlreadyRunningError` if a job is already `running` (fail fast, never
queued); on acceptance it sets status `running`,
`total_pages = len(document.pages)` and `current_page = 0`. -/
def start (s : JobState) (pages : List String) (q : QualityTier) :
    Except StartError JobState :=
  if s.status = .running then .error .jobAlreadyRunning
  else
    .ok { status := .running, currentPage := 0, totalPages := pages.length,
          quality := q, results := [] }

/-- Modelled from the spec: `cancel()` sets status `cancelling` if currently
`running`, and is a no-op if not running. -/
def cancel (s : JobState) : JobState :=
  if s.status = .running then { s with status := .cancelling } else s

/-- Whether the cooperative cancellation flag is observed set at the per-page
checkpoint once `done` pages have completed.  `cancelAfter = some k` models a
cancel request arriving right after page `k` completed (`k = 0`: before any
page completes); `none` models a run with no cancel request. -/
def cancelRequested (cancelAfter : Option Nat) (done : Nat) : Bool :=
  match cancelAfter with
  | none => false
  | some k => k ≤ done

/-- Modelled from the spec: the orchestrator main loop, strictly sequential
in ascending page order.  At each checkpoint it first observes the
cancellation flag (finalizing to `cancelled` and keeping the pages translated
so far), then translates the page (a page translation error aborts the job as
`failed`), appends the resulting page to `results` and increments
`current_page`; on loop exhaustion the status becomes `completed`. -/
def runPages (translate : String → Except String String)
    (cancelAfter : Option Nat) :
    Nat → List String → JobState → JobState
  | _, [], s => { s with status := .completed }
  | done, text :: rest, s =>
    if cancelRequested cancelAfter done then
      { s with status := .cancelled }
    else
      match translate text with
      | .error _ => { s with status := .failed }
      | .ok t =>
        runPages translate cancelAfter (done + 1) rest
          { s with
            results := s.results ++ [⟨done + 1, text, t⟩],
            currentPage := done + 1 }

/-- Modelled from the spec: a whole job run over the pages of a document,
with a cancel request arriving once `cancelAfter` pages have completed. -/
def runJob (translate : String → Except String String) (pages : List String)
    (q : QualityTier) (cancelAfter : Option Nat) : JobState :=
  runPages translate cancelAfter 0 pages
    { status := .running, currentPage := 0, totalPages := pages.length,
      quality := q, results := [] }

/-- The `{current, total, percentage}` record of the progress endpoint
(`ProgressInfo.progress` in `frontend/src/types.ts`). -/
structure Progress where
  current : Nat
  total : Nat
  percentage : ℚ
deriving DecidableEq, Repr

/-- Modelled from the spec: `get_progress` is always safe to call; with no
running job it returns zeros, otherwise
`percentage = current_page / total_pages * 100` clamped to `[0, 100]`, the
`total_pages = 0` case yielding `0` rather than a division error. -/
def getProgress : Option JobState → Progress
  | none => { current := 0, total := 0, percentage := 0 }
  | some s =>
    { current := s.currentPage, total := s.totalPages,
      percentage :=
        if s.totalPages = 0 then 0
        else
          max 0 (min ((s.currentPage : ℚ) / (s.totalPages : ℚ) * 100) 100) }

/-! ## Glossary store -/

/-- The stored glossary mapping, in display (insertion) order.  A JS object /
Python dict holds at most one value per key. -/
abbrev Glossary := List (String × String)

/-- Key lookup in the stored mapping (what a caller of `get_all` observes for
one key). -/
def glossaryLookup (g : Glossary) (k : String) : Option String :=
  match g with
  | [] => none
  | (k₀, v) :: rest => if k₀ = k then some v else glossaryLookup rest k

/-- Overwrite-or-append insertion: last-write-wins on an existing key,
otherwise the new pair is appended, preserving display order. -/
def setKey (g : Glossary) (k v : String) : Glossary :=
  match g with
  | [] => [(k, v)]
  | (k₀, v₀) :: rest =>
    if k₀ = k then (k, v) :: rest else (k₀, v₀) :: setKey rest k v

/-- Embeds the trimming of the source languages (JS
`String.prototype.trim`, Swift `trimmingCharacters(in:
.whitespacesAndNewlines)`): drop leading and trailing whitespace characters
(space, tab, carriage return, line feed). -/
def trimChars (cs : List Char) : List Char :=
  ((cs.dropWhile Char.isWhitespace).reverse.dropWhile Char.isWhitespace).reverse

/-- String version of `trimChars`. -/
def strTrim (s : String) : String := ⟨trimChars s.data⟩

/-- The glossary validation error. -/
inductive GlossaryError where
  | validationError
deriving DecidableEq, Repr

/-- Modelled from the spec: `add(source, target)` fails with `ValidationError`
if either string is empty after trimming, and otherwise stores the pair,
silently overwriting an existing key (last-write-wins).  The Python glossary
store is not under `src`. -/
def glossaryAdd (g : Glossary) (source target : String) :
    Except GlossaryError Glossary :=
  if strTrim source = "" ∨ strTrim target = "" then .error .validationError
  else .ok (setKey g source target)

/-- Modelled from the spec: `replace_all(mapping)` replaces the stored
mapping wholesale (the frontend uses it for bulk update/delete through
`updateGlossary` in `frontend/src/api.ts`). -/
def replaceAll (_store : Glossary) (m : Glossary) : Glossary := m

/-- Embeds `handleDeleteTerm` from
`frontend/src/components/GlossaryPanel.tsx`: copy the current mapping,
`delete newGlossary[english]`, then store it via `updateGlossary`
(replace_all). -/
def handleDeleteTerm (g : Glossary) (english : String) : Glossary :=
  replaceAll g (g.filter (fun p => p.1 != english))

/-! ## Download / export -/

/-- The download format set of `frontend/src/api.ts`
(`'original' | 'translated' | 'both'`). -/
inductive DownloadFormat where
  | original
  | translated
  | both
deriving DecidableEq, Repr

/-- Modelled from the spec: the text rendered for one page in the requested
format (the backend download formatter is not under `src`; the spec specifies
a text blob concatenating the requested pages in the requested format). -/
def renderPage (fmt : DownloadFormat) (p : TranslatedPage) : String :=
  match fmt with
  | .original => p.original ++ "\n"
  | .translated => p.translated ++ "\n"
  | .both => p.original ++ "\n" ++ p.translated ++ "\n"

/-- The requested page subset (`pageNumbers` in `frontend/src/api.ts`): with
`some ns` only pages whose page number is in `ns` are kept, with `none` all
pages are kept. -/
def selectPages (pages : List TranslatedPage) (subset : Option (List Nat)) :
    List TranslatedPage :=
  match subset with
  | none => pages
  | some ns => pages.filter (fun p => ns.contains p.page)

/-- Insertion into a list sorted ascending by page number. -/
def insertByPage (p : TranslatedPage) :
    List TranslatedPage → List TranslatedPage
  | [] => [p]
  | q :: rest =>
    if p.page ≤ q.page then p :: q :: rest else q :: insertByPage p rest

/-- Insertion sort ascending by page number. -/
def sortByPage : List TranslatedPage → List TranslatedPage
  | [] => []
  | p :: rest => insertByPage p (sortByPage rest)

/-- Modelled from the spec: the download blob concatenates the requested
pages, ordered ascending by page number, each rendered in the requested
format. -/
def downloadBlob (pages : List TranslatedPage) (fmt : DownloadFormat)
    (subset : Option (List Nat)) : String :=
  String.join ((sortByPage (selectPages pages subset)).map (renderPage fmt))

/-- The data of a page that the `original` format may draw on: its page
number and its original text. -/
def pageOriginal (p : TranslatedPage) : Nat × String := (p.page, p.original)

/-- Insertion into a pair list sorted ascending by first component (used to
factor the `original`-format blob through `pageOriginal`). -/
def insertPair (p : Nat × String) :
    List (Nat × String) → List (Nat × String)
  | [] => [p]
  | q :: rest => if p.1 ≤ q.1 then p :: q :: rest else q :: insertPair p rest

/-- Insertion sort of a pair list, ascending by first component. -/
def sortPairs : List (Nat × String) → List (Nat × String)
  | [] => []
  | p :: rest => insertPair p (sortPairs rest)

/-- The subset selection on `(page, original)` pairs. -/
def selectPairs (l : List (Nat × String)) (subset : Option (List Nat)) :
    List (Nat × String) :=
  match subset with
  | none => l
  | some ns => l.filter (fun p => ns.contains p.1)

/-- The `original`-format blob computed from `(page, original)` pairs only. -/
def originalBlob (l : List (Nat × String)) (subset : Option (List Nat)) :
    String :=
  String.join ((sortPairs (selectPairs l subset)).map (fun p => p.2 ++ "\n"))

/-! ## PDF viewer zoom -/

/-- Embeds the initial zoom state of `PdfViewer` (`src/unnamed/part_002`):
`React.useState<number>(1.0)`. -/
def initialScale : ℚ := 1

/-- Embeds `handleZoomIn`: `setScale(prev => Math.min(prev + 0.25, 3.0))`. -/
def handleZoomIn (prev : ℚ) : ℚ := min (prev + 1/4) 3

/-- Embeds `handleZoomOut`: `setScale(prev => Math.max(prev - 0.25, 0.5))`. -/
def handleZoomOut (prev : ℚ) : ℚ := max (prev - 1/4) (1/2)

/-- Embeds `handleResetZoom`: `setScale(1.0)`. -/
def handleResetZoom (_prev : ℚ) : ℚ := 1

/-- The zoom scale bounds invariant. -/
def scaleInBounds (s : ℚ) : Prop := 1/2 ≤ s ∧ s ≤ 3

/-! ## File upload guard -/

/-- A browser `File` as the upload component consults it: its MIME type
(`file.type`) and its name. -/
structure JsFile where
  type : String
  name : String
deriving DecidableEq, Repr

/-- Embeds `handleFileChange` from
`frontend/src/components/FileUpload.tsx`:
`const file = event.target.files?.[0]; if (file && file.type ===
'application/pdf') onFileSelect(file); else alert(...)`.  The value is the
file passed to `onFileSelect`, `none` when `onFileSelect` is not invoked. -/
def handleFileChange (files : List JsFile) : Option JsFile :=
  match files.head? with
  | some file => if file.type = "application/pdf" then some file else none
  | none => none

/-- Embeds `handleDrop` from the same component:
`const file = event.dataTransfer.files[0]; if (file && file.type ===
'application/pdf') onFileSelect(file); else alert(...)`. -/
def handleDrop (files : List JsFile) : Option JsFile :=
  match files.head? with
  | some file => if file.type = "application/pdf" then some file else none
  | none => none

/-! ## Apple translation script -/

/-- The observable behaviour of one run of
`backend/apple_translate.swift`: process exit code, the line printed to
stdout (if any), the message written to stderr (if any), and the text the
translation session was invoked on (if it was invoked). -/
structure ScriptResult where
  exitCode : Nat
  stdoutLine : Option String
  stderrLine : Option String
  translatedInput : Option String
deriving DecidableEq, Repr

/-- Embeds `main()` of `backend/apple_translate.swift`, parameterized by the
filesystem (`readFile`, `none` = unreadable) and by the external translation
session (`translate`, the `en → ja` call, which may throw). -/
def appleTranslateMain (arguments : List String)
    (readFile : String → Option String)
    (translate : String → Except String String) : ScriptResult :=
  match arguments with
  | _ :: inputPath :: _ =>
    match readFile inputPath with
    | none =>
      { exitCode := 1, stdoutLine := none,
        stderrLine := some "Error reading file", translatedInput := none }
    | some text =>
      if strTrim text = "" then
        { exitCode := 0, stdoutLine := some "",
          stderrLine := none, translatedInput := none }
      else
        match translate text with
        | .ok translated =>
          { exitCode := 0, stdoutLine := some translated,
            stderrLine := none, translatedInput := some text }
        | .error e =>
          { exitCode := 1, stdoutLine := none,
            stderrLine := some ("Translation error: " ++ e),
            translatedInput := some text }
  | _ =>
    { exitCode := 1, stdoutLine := none,
      stderrLine := some "Error: No input file provided",
      translatedInput := none }

/-! ## Theorems -/

/-- C4: the quality tier type has exactly the three values `high`, `balanced`
and `fast`, and the tier-to-model binding is a total function that is
reported identically everywhere: the (spec-modelled) quality-info options,
the TranslationPanel model name, and the App header badge agree on every
tier. -/
theorem quality_tier_model_binding :
    (∀ t : QualityTier, t = .high ∨ t = .balanced ∨ t = .fast) ∧
    (∀ t : QualityTier,
      getModelName t.key = qualityOptionsModel t ∧
      appHeaderModel t.key = qualityOptionsModel t) := by
  constructor
  · intro t
    cases t
    · exact Or.inl rfl
    · exact Or.inr (Or.inl rfl)
    · exact Or.inr (Or.inr rfl)
  · intro t
    cases t <;>
      simp [QualityTier.key, getModelName, appHeaderModel, qualityOptionsModel]

/-- C1: for every document and quality tier, calling `start` while the
process-wide singleton job state is `running` fails fast with
`JobAlreadyRunningError` (no new job is created or queued), regardless of the
page count or quality of the second request. -/
theorem start_fails_fast_when_running (s : JobState) (pages : List String)
    (q : QualityTier) (h : s.status = .running) :
    start s pages q = .error .jobAlreadyRunning := by
  simp [start, h]

/-- Witness for C1 at a concrete running job state. -/
theorem start_fails_fast_when_running_witness :
    start
      { status := .running, currentPage := 1, totalPages := 3,
        quality := .balanced, results := [] } ["a", "b"] .high
      = .error .jobAlreadyRunning :=
  start_fails_fast_when_running _ _ _ rfl

/-- C3: `get_progress` is total and never errors: with no running job it
returns `{current_page 0, total_pages 0, percentage 0}`, and in every state
the percentage equals `current_page / total_pages * 100` clamped to
`[0, 100]` — in particular the `total_pages = 0` case is well defined and
yields `0`. -/
theorem get_progress_total_and_clamped :
    getProgress none = { current := 0, total := 0, percentage := 0 } ∧
    ∀ s : JobState,
      (getProgress (some s)).current = s.currentPage ∧
      (getProgress (some s)).total = s.totalPages ∧
      (getProgress (some s)).percentage
        = max 0 (min ((s.currentPage : ℚ) / (s.totalPages : ℚ) * 100) 100) ∧
      0 ≤ (getProgress (some s)).percentage ∧
      (getProgress (some s)).percentage ≤ 100 ∧
      (s.totalPages = 0 → (getProgress (some s)).percentage = 0) := by
  refine ⟨rfl, fun s => ?_⟩
  by_cases h : s.totalPages = 0
  · refine ⟨rfl, rfl, ?_, ?_, ?_, fun _ => ?_⟩ <;>
      simp [getProgress, h, div_zero]
  · refine ⟨rfl, rfl, by simp [getProgress, h], ?_, ?_, fun hz => absurd hz h⟩
    · simp only [getProgress, h, if_false]
      exact le_max_left 0 _
    · simp only [getProgress, h, if_false]
      exact max_le (by norm_num) (min_le_right _ _)

/-- C8: the PDF viewer zoom scale satisfies `0.5 ≤ scale ≤ 3.0` under every
operation: the initial scale is 1.0, reset maps any scale to exactly 1.0, and
zoom-in / zoom-out keep the scale within the bounds. -/
theorem zoom_scale_invariant :
    scaleInBounds initialScale ∧ initialScale = 1 ∧
    ∀ s : ℚ, scaleInBounds s →
      scaleInBounds (handleZoomIn s) ∧
      scaleInBounds (handleZoomOut s) ∧
      scaleInBounds (handleResetZoom s) ∧
      handleResetZoom s = 1 := by
  refine ⟨⟨by norm_num [initialScale], by norm_num [initialScale]⟩, rfl, ?_⟩
  rintro s ⟨h1, h2⟩
  refine ⟨⟨?_, ?_⟩, ⟨?_, ?_⟩, ⟨by norm_num [handleResetZoom],
    by norm_num [handleResetZoom]⟩, rfl⟩
  · exact le_min (by linarith) (by norm_num)
  · exact min_le_right _ _
  · exact le_max_right _ _
  · exact max_le (by linarith) (by norm_num)

/-- Witness for C8 at the concrete scale 1. -/
theorem zoom_scale_invariant_witness :
    scaleInBounds (handleZoomIn 1) ∧ scaleInBounds (handleZoomOut 1) ∧
    scaleInBounds (handleResetZoom 1) ∧ handleResetZoom 1 = 1 :=
  zoom_scale_invariant.2.2 1 ⟨by norm_num, by norm_num⟩

/-- The orchestrator loop observed from a checkpoint: when every page
translation succeeds and the cancel request arrives once `k` pages have
completed, with `k` inside the range of the remaining pages, the loop
finalizes to `cancelled` having appended exactly `k - done` further pages. -/
theorem runPages_cancelled (translate : String → Except String String)
    (k : Nat) (htr : ∀ t, ∃ r, translate t = .ok r) :
    ∀ (rest : List String) (done : Nat) (s : JobState),
      done ≤ k → k < done + rest.length →
      (runPages translate (some k) done rest s).status = .cancelled ∧
      (runPages translate (some k) done rest s).results.length
        = s.results.length + (k - done) := by
  intro rest
  induction rest with
  | nil =>
    intro done s h1 h2
    simp only [List.length_nil] at h2
    omega
  | cons text rest ih =>
    intro done s h1 h2
    by_cases hk : k ≤ done
    · have hkd : k = done := le_antisymm hk h1
      constructor <;> simp [runPages, cancelRequested, hk, hkd]
    · obtain ⟨r, hr⟩ := htr text
      have hcr : cancelRequested (some k) done = false := by
        simp only [cancelRequested, decide_eq_false_iff_not]
        omega
      have hstep : runPages translate (some k) done (text :: rest) s
          = runPages translate (some k) (done + 1) rest
              { s with results := s.results ++ [⟨done + 1, text, r⟩],
                       currentPage := done + 1 } := by
        simp [runPages, hcr, hr]
      have hih := ih (done + 1)
        { s with results := s.results ++ [⟨done + 1, text, r⟩],
                 currentPage := done + 1 }
        (by omega) (by simp only [List.length_cons] at h2; omega)
      rw [hstep]
      refine ⟨hih.1, ?_⟩
      rw [hih.2]
      simp only [List.length_append, List.length_cons, List.length_nil]
      omega

/-- C2: for every `N`-page document whose page translations succeed, a cancel
request arriving once `k` pages have completed (`k < N`, including `k = 0`:
before any page completes) ends the job in status `cancelled` with exactly
`k` entries in `results` (no phantom or missing pages; `k = 0` leaves
`results` empty); and `cancel` itself is a no-op when no job is running. -/
theorem cancel_after_k_pages (translate : String → Except String String)
    (q : QualityTier) (pages : List String) (k : Nat)
    (hk : k < pages.length) (htr : ∀ t, ∃ r, translate t = .ok r) :
    (runJob translate pages q (some k)).status = .cancelled ∧
    (runJob translate pages q (some k)).results.length = k ∧
    ∀ s : JobState, s.status ≠ .running → cancel s = s := by
  have h := runPages_cancelled translate k htr pages 0
    { status := .running, currentPage := 0, totalPages := pages.length,
      quality := q, results := [] } (Nat.zero_le k) (by omega)
  refine ⟨h.1, ?_, fun s hs => by simp [cancel, hs]⟩
  have h2 := h.2
  simpa using h2

/-- Witness for C2: a two-page document cancelled after the first page
completes ends `cancelled` with exactly one result, derived from the claim
theorem at concrete inputs. -/
theorem cancel_after_k_pages_witness :
    (runJob (fun t => Except.ok t) ["Hello", "World"] .fast (some 1)).status
        = .cancelled ∧
    (runJob (fun t => Except.ok t) ["Hello", "World"] .fast
        (some 1)).results.length = 1 := by
  have h := cancel_after_k_pages (fun t => Except.ok t) .fast
    ["Hello", "World"] 1 (by decide) (fun t => ⟨t, rfl⟩)
  exact ⟨h.1, h.2.1⟩

/-- Looking up the key just set yields the newly stored value. -/
theorem glossaryLookup_setKey_self (g : Glossary) (k v : String) :
    glossaryLookup (setKey g k v) k = some v := by
  induction g with
  | nil => simp [setKey, glossaryLookup]
  | cons p rest ih =>
    obtain ⟨k₀, v₀⟩ := p
    by_cases h : k₀ = k
    · simp [setKey, glossaryLookup, h]
    · simp [setKey, glossaryLookup, h, ih]

/-- Setting a key leaves every other key's lookup unchanged. -/
theorem glossaryLookup_setKey_other (g : Glossary) (k v k₁ : String)
    (h : k₁ ≠ k) :
    glossaryLookup (setKey g k v) k₁ = glossaryLookup g k₁ := by
  induction g with
  | nil => simp [setKey, glossaryLookup, Ne.symm h]
  | cons p rest ih =>
    obtain ⟨k₀, v₀⟩ := p
    by_cases h0 : k₀ = k
    · subst h0
      simp [setKey, glossaryLookup, Ne.symm h]
    · by_cases h1 : k₀ = k₁ <;>
        simp [setKey, glossaryLookup, h0, h1, h, ih]

/-- C5: a glossary `add` whose source and target are non-empty after trimming
succeeds, and the stored mapping then contains that `(source, target)` pair —
an existing key is silently overwritten (last-write-wins) and every other key
is left unchanged; with either side empty after trimming, `add` fails with
`ValidationError` (returning no new mapping, so the glossary is unchanged). -/
theorem glossary_add_get_all (g : Glossary) (source target : String) :
    (strTrim source ≠ "" → strTrim target ≠ "" →
      glossaryAdd g source target = .ok (setKey g source target) ∧
      glossaryLookup (setKey g source target) source = some target ∧
      ∀ k, k ≠ source →
        glossaryLookup (setKey g source target) k = glossaryLookup g k) ∧
    (strTrim source = "" ∨ strTrim target = "" →
      glossaryAdd g source target = .error .validationError) := by
  constructor
  · intro hs ht
    refine ⟨?_, glossaryLookup_setKey_self g source target,
      fun k hk => glossaryLookup_setKey_other g source target k hk⟩
    simp only [glossaryAdd]
    rw [if_neg (not_or.mpr ⟨hs, ht⟩)]
  · intro h
    simp only [glossaryAdd]
    rw [if_pos h]

/-- Witness for C5: a concrete successful add and a concrete rejected add,
derived from the claim theorem. -/
theorem glossary_add_get_all_witness :
    glossaryAdd [("model", "モデル")] "page" "ページ"
        = .ok (setKey [("model", "モデル")] "page" "ページ") ∧
    glossaryLookup (setKey [("model", "モデル")] "page" "ページ") "page"
        = some "ページ" ∧
    glossaryAdd [("model", "モデル")] " " "ページ"
        = .error .validationError := by
  have h1 := (glossary_add_get_all [("model", "モデル")] "page" "ページ").1
    (by decide) (by decide)
  have h2 := (glossary_add_get_all [("model", "モデル")] " " "ページ").2
    (Or.inl (by decide))
  exact ⟨h1.1, h1.2.1, h2⟩

/-- Deleting a key removes that key from the mapping. -/
theorem glossaryLookup_delete_self (g : Glossary) (k : String) :
    glossaryLookup (handleDeleteTerm g k) k = none := by
  induction g with
  | nil => rfl
  | cons p rest ih =>
    obtain ⟨k₀, v₀⟩ := p
    by_cases h : k₀ = k
    · simpa [handleDeleteTerm, replaceAll, List.filter_cons, h] using ih
    · simpa [handleDeleteTerm, replaceAll, List.filter_cons, glossaryLookup,
        h] using ih

/-- Deleting a key leaves every other key's lookup unchanged. -/
theorem glossaryLookup_delete_other (g : Glossary) (k k₁ : String)
    (h : k₁ ≠ k) :
    glossaryLookup (handleDeleteTerm g k) k₁ = glossaryLookup g k₁ := by
  induction g with
  | nil => rfl
  | cons p rest ih =>
    obtain ⟨k₀, v₀⟩ := p
    by_cases h0 : k₀ = k
    · subst h0
      simpa [handleDeleteTerm, replaceAll, List.filter_cons, glossaryLookup,
        Ne.symm h] using ih
    · by_cases h1 : k₀ = k₁
      · simp [handleDeleteTerm, replaceAll, List.filter_cons, glossaryLookup,
          h0, h1, h]
      · simpa [handleDeleteTerm, replaceAll, List.filter_cons, glossaryLookup,
          h0, h1, h] using ih

/-- C6: deleting one glossary term is `replace_all` with the current mapping
minus that key: afterwards the deleted key is absent, every other key's value
is unchanged, and an entry of the previous mapping survives exactly when its
key differs from the deleted one. -/
theorem delete_term_removes_exactly_key (g : Glossary) (english : String) :
    handleDeleteTerm g english
        = replaceAll g (g.filter (fun p => p.1 != english)) ∧
    glossaryLookup (handleDeleteTerm g english) english = none ∧
    (∀ k, k ≠ english →
      glossaryLookup (handleDeleteTerm g english) k = glossaryLookup g k) ∧
    (∀ p : String × String,
      p ∈ handleDeleteTerm g english ↔ p ∈ g ∧ p.1 ≠ english) := by
  refine ⟨rfl, glossaryLookup_delete_self g english,
    fun k hk => glossaryLookup_delete_other g english k hk, fun p => ?_⟩
  simp [handleDeleteTerm, replaceAll, List.mem_filter, bne_iff_ne]

/-- Witness for C6 on a concrete two-entry glossary, derived from the claim
theorem. -/
theorem delete_term_removes_exactly_key_witness :
    glossaryLookup
        (handleDeleteTerm [("page", "ページ"), ("model", "モデル")] "page")
        "page" = none ∧
    glossaryLookup
        (handleDeleteTerm [("page", "ページ"), ("model", "モデル")] "page")
        "model" = some "モデル" := by
  have h := delete_term_removes_exactly_key
    [("page", "ページ"), ("model", "モデル")] "page"
  refine ⟨h.2.1, ?_⟩
  rw [h.2.2.1 "model" (by decide)]
  decide

/-- C9: the file-upload component passes a file to `onFileSelect` only when
its MIME type is exactly `application/pdf`, on both the file-picker path and
the drag-and-drop path; any other file (or no file) never reaches
`onFileSelect`. -/
theorem file_upload_pdf_only (files : List JsFile) (f : JsFile) :
    (handleFileChange files = some f ↔
      files.head? = some f ∧ f.type = "application/pdf") ∧
    (handleDrop files = some f ↔
      files.head? = some f ∧ f.type = "application/pdf") := by
  constructor <;>
  · simp only [handleFileChange, handleDrop]
    cases hh : files.head? with
    | none => simp
    | some x =>
      by_cases ht : x.type = "application/pdf"
      · simp only [ht, if_true, Option.some.injEq]
        constructor
        · rintro rfl
          exact ⟨rfl, ht⟩
        · rintro ⟨hx, _⟩
          exact hx
      · simp only [ht, if_false, Option.some.injEq]
        constructor
        · rintro ⟨⟩
        · rintro ⟨hx, hf⟩
          exact absurd (hx ▸ hf) ht

/-- Witness for C9: a PDF file is passed through, a plain-text file is not. -/
theorem file_upload_pdf_only_witness :
    handleFileChange [{ type := "application/pdf", name := "spec.pdf" }]
      = some { type := "application/pdf", name := "spec.pdf" } ∧
    handleDrop [{ type := "text/plain", name := "spec.txt" }] = none :=
  ⟨(file_upload_pdf_only
      [{ type := "application/pdf", name := "spec.pdf" }]
      { type := "application/pdf", name := "spec.pdf" }).1.mpr ⟨rfl, rfl⟩,
    rfl⟩

/-- Membership through page insertion. -/
theorem mem_insertByPage (p a : TranslatedPage) (l : List TranslatedPage) :
    a ∈ insertByPage p l ↔ a = p ∨ a ∈ l := by
  induction l with
  | nil => simp [insertByPage]
  | cons q rest ih =>
    by_cases h : p.page ≤ q.page
    · simp [insertByPage, h]
    · simp [insertByPage, h, ih]
      tauto

/-- Sorting by page keeps exactly the members. -/
theorem mem_sortByPage (a : TranslatedPage) (l : List TranslatedPage) :
    a ∈ sortByPage l ↔ a ∈ l := by
  induction l with
  | nil => simp [sortByPage]
  | cons p rest ih => simp [sortByPage, mem_insertByPage, ih]

/-- Inserting into a page-sorted list keeps it page-sorted. -/
theorem pairwise_insertByPage (p : TranslatedPage) (l : List TranslatedPage)
    (h : l.Pairwise (fun a b => a.page ≤ b.page)) :
    (insertByPage p l).Pairwise (fun a b => a.page ≤ b.page) := by
  induction l with
  | nil => simp [insertByPage]
  | cons q rest ih =>
    rcases List.pairwise_cons.mp h with ⟨hq, hrest⟩
    by_cases hle : p.page ≤ q.page
    · simp only [insertByPage, if_pos hle]
      refine List.pairwise_cons.mpr ⟨?_, h⟩
      intro b hb
      rcases List.mem_cons.mp hb with rfl | hb
      · exact hle
      · exact le_trans hle (hq b hb)
    · simp only [insertByPage, if_neg hle]
      refine List.pairwise_cons.mpr ⟨?_, ih hrest⟩
      intro b hb
      rcases (mem_insertByPage p b rest).mp hb with rfl | hb
      · exact le_of_not_le hle
      · exact hq b hb

/-- The insertion sort by page number sorts. -/
theorem pairwise_sortByPage (l : List TranslatedPage) :
    (sortByPage l).Pairwise (fun a b => a.page ≤ b.page) := by
  induction l with
  | nil => simp [sortByPage]
  | cons p rest ih => exact pairwise_insertByPage p _ ih

/-- Page insertion commutes with projecting to `(page, original)` pairs. -/
theorem map_pageOriginal_insertByPage (p : TranslatedPage)
    (l : List TranslatedPage) :
    (insertByPage p l).map pageOriginal
      = insertPair (pageOriginal p) (l.map pageOriginal) := by
  induction l with
  | nil => rfl
  | cons q rest ih =>
    by_cases h : p.page ≤ q.page
    · simp [insertByPage, insertPair, pageOriginal, h]
    · simp [insertByPage, insertPair, pageOriginal, h, ih]

/-- Page sorting commutes with projecting to `(page, original)` pairs. -/
theorem map_pageOriginal_sortByPage (l : List TranslatedPage) :
    (sortByPage l).map pageOriginal = sortPairs (l.map pageOriginal) := by
  induction l with
  | nil => rfl
  | cons p rest ih =>
    simp [sortByPage, sortPairs, map_pageOriginal_insertByPage, ih]

/-- Subset selection commutes with projecting to `(page, original)` pairs. -/
theorem map_pageOriginal_selectPages (pages : List TranslatedPage)
    (subset : Option (List Nat)) :
    (selectPages pages subset).map pageOriginal
      = selectPairs (pages.map pageOriginal) subset := by
  cases subset with
  | none => rfl
  | some ns =>
    simp only [selectPages, selectPairs, List.filter_map]
    rfl

/-- The `original`-format blob factors through the `(page, original)`
projection: it can be computed from page numbers and original texts alone. -/
theorem downloadBlob_original_factor (pages : List TranslatedPage)
    (subset : Option (List Nat)) :
    downloadBlob pages .original subset
      = originalBlob (pages.map pageOriginal) subset := by
  unfold downloadBlob originalBlob
  rw [← map_pageOriginal_selectPages, ← map_pageOriginal_sortByPage,
    List.map_map]
  rfl

/-- C7: the download blob concatenates exactly the requested pages: the
rendered sequence keeps precisely the pages of the requested subset (all
pages when no subset is given), ordered ascending by page number, for every
format including `both`; and with format `original` the blob is a function of
page numbers and original texts only, so it never draws on any translated
text. -/
theorem download_blob_spec (pages : List TranslatedPage)
    (subset : Option (List Nat)) :
    ((sortByPage (selectPages pages subset)).map
        TranslatedPage.page).Sorted (· ≤ ·) ∧
    (∀ (p : TranslatedPage) (ns : List Nat),
      p ∈ sortByPage (selectPages pages (some ns)) ↔
        p ∈ pages ∧ p.page ∈ ns) ∧
    (∀ p : TranslatedPage,
      p ∈ sortByPage (selectPages pages none) ↔ p ∈ pages) ∧
    (∀ fmt : DownloadFormat,
      downloadBlob pages fmt subset
        = String.join
            ((sortByPage (selectPages pages subset)).map (renderPage fmt))) ∧
    (∀ qs : List TranslatedPage,
      pages.map pageOriginal = qs.map pageOriginal →
      downloadBlob pages .original subset
        = downloadBlob qs .original subset) := by
  refine ⟨?_, ?_, ?_, fun fmt => rfl, fun qs h => ?_⟩
  · exact List.pairwise_map.mpr (pairwise_sortByPage _)
  · intro p ns
    simp [mem_sortByPage, selectPages, List.mem_filter, List.elem_iff]
  · intro p
    simp [mem_sortByPage, selectPages]
  · rw [downloadBlob_original_factor, downloadBlob_original_factor, h]

/-- Witness for C7: the `original` blob is unchanged when only the translated
text differs, and a concrete page is kept by a concrete subset — both derived
from the claim theorem. -/
theorem download_blob_spec_witness :
    downloadBlob [⟨1, "A", "a"⟩] .original none
      = downloadBlob [⟨1, "A", "zzz"⟩] .original none ∧
    (⟨1, "A", "a"⟩ : TranslatedPage)
      ∈ sortByPage (selectPages [⟨1, "A", "a"⟩] (some [1])) := by
  have h := download_blob_spec [(⟨1, "A", "a"⟩ : TranslatedPage)] none
  exact ⟨h.2.2.2.2 [⟨1, "A", "zzz"⟩] rfl,
    (h.2.1 ⟨1, "A", "a"⟩ [1]).mpr ⟨by simp, by simp⟩⟩

/-- C10: the Apple translation script is total at the process boundary: with
no input-file argument or an unreadable file it writes an error to stderr and
exits with status 1, producing no stdout line and invoking no translation;
with input text empty after trimming whitespace and newlines it prints an
empty line and exits 0 without invoking translation; and only text non-empty
after trimming ever reaches the en→ja translation call. -/
theorem apple_translate_boundary (arguments : List String)
    (readFile : String → Option String)
    (translate : String → Except String String) :
    (arguments.length ≤ 1 →
      appleTranslateMain arguments readFile translate
        = { exitCode := 1, stdoutLine := none,
            stderrLine := some "Error: No input file provided",
            translatedInput := none }) ∧
    (∀ prog path rest, arguments = prog :: path :: rest →
      readFile path = none →
      appleTranslateMain arguments readFile translate
        = { exitCode := 1, stdoutLine := none,
            stderrLine := some "Error reading file",
            translatedInput := none }) ∧
    (∀ prog path rest text, arguments = prog :: path :: rest →
      readFile path = some text → strTrim text = "" →
      appleTranslateMain arguments readFile translate
        = { exitCode := 0, stdoutLine := some "", stderrLine := none,
            translatedInput := none }) ∧
    (∀ t,
      (appleTranslateMain arguments readFile translate).translatedInput
        = some t → strTrim t ≠ "") := by
  refine ⟨?_, ?_, ?_, ?_⟩
  · intro h
    rcases arguments with _ | ⟨a, _ | ⟨b, rest⟩⟩
    · rfl
    · rfl
    · simp only [List.length_cons] at h
      omega
  · rintro prog path rest rfl h
    simp [appleTranslateMain, h]
  · rintro prog path rest text rfl hread htrim
    simp [appleTranslateMain, hread, htrim]
  · intro t ht
    rcases arguments with _ | ⟨prog, _ | ⟨path, rest⟩⟩
    · simp [appleTranslateMain] at ht
    · simp [appleTranslateMain] at ht
    · rcases hread : readFile path with _ | text
      · simp [appleTranslateMain, hread] at ht
      · by_cases htrim : strTrim text = ""
        · simp [appleTranslateMain, hread, htrim] at ht
        · rcases htr : translate text with e | r <;>
            simp [appleTranslateMain, hread, htrim, htr] at ht <;>
            exact ht ▸ htrim

/-- Witness for C10: the no-argument run and the blank-input run, derived
from the claim theorem at concrete inputs. -/
theorem apple_translate_boundary_witness :
    appleTranslateMain ["apple_translate.swift"] (fun _ => none)
        (fun t => Except.ok t)
      = { exitCode := 1, stdoutLine := none,
          stderrLine := some "Error: No input file provided",
          translatedInput := none } ∧
    appleTranslateMain ["apple_translate.swift", "in.txt"]
        (fun _ => some " \n") (fun t => Except.ok t)
      = { exitCode := 0, stdoutLine := some "", stderrLine := none,
          translatedInput := none } := by
  have h1 := apple_translate_boundary ["apple_translate.swift"]
    (fun _ => none) (fun t => Except.ok t)
  have h2 := apple_translate_boundary ["apple_translate.swift", "in.txt"]
    (fun _ => some " \n") (fun t => Except.ok t)
  exact ⟨h1.1 (by decide),
    h2.2.2.1 "apple_translate.swift" "in.txt" [] " \n" rfl rfl (by decide)⟩

end PdfTranslation
